import Mathlib

/-!
Verification development for the OSAInt scraping/graph-assembly pipeline
(`src/osaint.py`, `src/util/scraper.py`, `src/services/scrapedo.py`).

The embedding models, from the source:
  * JSON values as produced by `json.loads` (numbers other than integers are
    kept symbolically as their literal text; their float value semantics are
    never needed by any claim),
  * Python dicts over string keys as insertion-ordered association lists,
  * the `networkx.DiGraph` node/edge dictionaries and the exact semantics of
    `add_node` / `add_edge` (attribute dict update on collision),
  * the per-document delta extraction/parse/apply step of `main` /
    `run_pipeline`, including partial mutation when an entry inside a parsed
    delta raises (`KeyError` / `TypeError`),
  * link categorization and the fast-tier/escalation dispatch,
  * the `except RateLimited or CaptchaDetected` handler of
    `scrape_google_page` (Python evaluates the class expression first),
  * the associated-identifier collection and the person-selection step.
-/

/-- JSON values (`json.loads` output).  `fnum` keeps a non-integer numeric
literal symbolically; `null` also stands for Python `None` (absent keys). -/
inductive Json where
  | null : Json
  | bool : Bool → Json
  | num : Int → Json
  | fnum : String → Json
  | str : String → Json
  | arr : List Json → Json
  | obj : List (String × Json) → Json

mutual

/-- Structural equality of JSON values (Python `==` on parsed values). -/
def beqJ : Json → Json → Bool
  | .null, .null => true
  | .bool a, .bool b => a == b
  | .num a, .num b => a == b
  | .fnum a, .fnum b => a == b
  | .str a, .str b => a == b
  | .arr xs, .arr ys => beqArrJ xs ys
  | .obj xs, .obj ys => beqObjJ xs ys
  | _, _ => false

/-- Elementwise equality of JSON arrays. -/
def beqArrJ : List Json → List Json → Bool
  | [], [] => true
  | x :: xs, y :: ys => beqJ x y && beqArrJ xs ys
  | _, _ => false

/-- Fieldwise equality of JSON objects. -/
def beqObjJ : List (String × Json) → List (String × Json) → Bool
  | [], [] => true
  | (k1, v1) :: xs, (k2, v2) :: ys => k1 == k2 && beqJ v1 v2 && beqObjJ xs ys
  | _, _ => false

end

mutual

theorem beqJ_iff : (a b : Json) → (beqJ a b = true ↔ a = b)
  | .null, .null => by simp [beqJ]
  | .bool _, .bool _ => by simp [beqJ]
  | .num _, .num _ => by simp [beqJ]
  | .fnum _, .fnum _ => by simp [beqJ]
  | .str _, .str _ => by simp [beqJ]
  | .arr xs, .arr ys => by
    simp only [beqJ, Json.arr.injEq]
    exact beqArrJ_iff xs ys
  | .obj xs, .obj ys => by
    simp only [beqJ, Json.obj.injEq]
    exact beqObjJ_iff xs ys
  | .null, .bool _ => by simp [beqJ]
  | .null, .num _ => by simp [beqJ]
  | .null, .fnum _ => by simp [beqJ]
  | .null, .str _ => by simp [beqJ]
  | .null, .arr _ => by simp [beqJ]
  | .null, .obj _ => by simp [beqJ]
  | .bool _, .null => by simp [beqJ]
  | .bool _, .num _ => by simp [beqJ]
  | .bool _, .fnum _ => by simp [beqJ]
  | .bool _, .str _ => by simp [beqJ]
  | .bool _, .arr _ => by simp [beqJ]
  | .bool _, .obj _ => by simp [beqJ]
  | .num _, .null => by simp [beqJ]
  | .num _, .bool _ => by simp [beqJ]
  | .num _, .fnum _ => by simp [beqJ]
  | .num _, .str _ => by simp [beqJ]
  | .num _, .arr _ => by simp [beqJ]
  | .num _, .obj _ => by simp [beqJ]
  | .fnum _, .null => by simp [beqJ]
  | .fnum _, .bool _ => by simp [beqJ]
  | .fnum _, .num _ => by simp [beqJ]
  | .fnum _, .str _ => by simp [beqJ]
  | .fnum _, .arr _ => by simp [beqJ]
  | .fnum _, .obj _ => by simp [beqJ]
  | .str _, .null => by simp [beqJ]
  | .str _, .bool _ => by simp [beqJ]
  | .str _, .num _ => by simp [beqJ]
  | .str _, .fnum _ => by simp [beqJ]
  | .str _, .arr _ => by simp [beqJ]
  | .str _, .obj _ => by simp [beqJ]
  | .arr _, .null => by simp [beqJ]
  | .arr _, .bool _ => by simp [beqJ]
  | .arr _, .num _ => by simp [beqJ]
  | .arr _, .fnum _ => by simp [beqJ]
  | .arr _, .str _ => by simp [beqJ]
  | .arr _, .obj _ => by simp [beqJ]
  | .obj _, .null => by simp [beqJ]
  | .obj _, .bool _ => by simp [beqJ]
  | .obj _, .num _ => by simp [beqJ]
  | .obj _, .fnum _ => by simp [beqJ]
  | .obj _, .str _ => by simp [beqJ]
  | .obj _, .arr _ => by simp [beqJ]


theorem beqArrJ_iff : (xs ys : List Json) → (beqArrJ xs ys = true ↔ xs = ys)
  | [], [] => by simp [beqArrJ]
  | [], _ :: _ => by simp [beqArrJ]
  | _ :: _, [] => by simp [beqArrJ]
  | x :: xs, y :: ys => by
    simp only [beqArrJ, Bool.and_eq_true, List.cons.injEq]
    rw [beqJ_iff x y, beqArrJ_iff xs ys]

theorem beqObjJ_iff : (xs ys : List (String × Json)) → (beqObjJ xs ys = true ↔ xs = ys)
  | [], [] => by simp [beqObjJ]
  | [], _ :: _ => by simp [beqObjJ]
  | _ :: _, [] => by simp [beqObjJ]
  | (k1, v1) :: xs, (k2, v2) :: ys => by
    simp only [beqObjJ, Bool.and_eq_true, List.cons.injEq, Prod.mk.injEq, beq_iff_eq]
    rw [beqJ_iff v1 v2, beqObjJ_iff xs ys]

end

instance : DecidableEq Json := fun a b => decidable_of_iff (beqJ a b = true) (beqJ_iff a b)

/-- Attribute dictionary: insertion-ordered association list, as a Python
dict over string keys. -/
abbrev Attrs := List (String × Json)

/-- `d.get(k)` as `Option` (first occurrence of the key). -/
def dictGet (d : Attrs) (k : String) : Option Json :=
  (d.find? (fun p => p.1 == k)).map (fun p => p.2)

/-- `k in d` for a Python dict. -/
def dictHasKey (d : Attrs) (k : String) : Bool :=
  d.any (fun p => p.1 == k)

/-- `d[k] = v` for a Python dict: replace in place if the key exists
(keeping its position), else append. -/
def dictInsert (d : Attrs) (k : String) (v : Json) : Attrs :=
  if dictHasKey d k then d.map (fun p => if p.1 == k then (p.1, v) else p)
  else d ++ [(k, v)]

/-- `old.update(new)` for Python dicts. -/
def dictUpdate (old new : Attrs) : Attrs :=
  new.foldl (fun acc p => dictInsert acc p.1 p.2) old

/-- `d.get(k)` with Python `None` for a missing key, collapsing absent and
JSON-null as Python does. -/
def pyGet (d : Attrs) (k : String) : Json :=
  (dictGet d k).getD Json.null

/-- The dict has no duplicate keys (true of every dict `json.loads` builds). -/
def NodupKeys (d : Attrs) : Prop :=
  (d.map Prod.fst).Nodup

/-- Python hashability of a JSON value: lists and dicts are unhashable. -/
def hashableJ : Json → Bool
  | Json.arr _ => false
  | Json.obj _ => false
  | _ => true

/-- The `networkx.DiGraph` of `main` / `run_pipeline`: an insertion-ordered
node dictionary keyed by node id and an insertion-ordered edge dictionary
keyed by (source, target) — a `DiGraph` holds at most one edge per ordered
pair by construction. -/
structure DiGraph where
  nodes : List (Json × Attrs)
  edges : List (Json × Json × Attrs)
deriving DecidableEq

/-- `nx.DiGraph()`. -/
def emptyG : DiGraph := ⟨[], []⟩

/-- `id in graph.nodes`. -/
def hasNode (g : DiGraph) (id : Json) : Bool :=
  g.nodes.any (fun p => p.1 == id)

/-- `graph.number_of_nodes()`. -/
def nodeCount (g : DiGraph) : Nat :=
  g.nodes.length

/-- `graph.nodes[id]` (empty dict when absent; callers only use it on
present nodes). -/
def nodeAttrs (g : DiGraph) (id : Json) : Attrs :=
  ((g.nodes.find? (fun p => p.1 == id)).map (fun p => p.2)).getD []

/-- The per-entry effect of an `add_node` id collision: the colliding entry's
attribute dict is `update`d, every other entry is untouched. -/
def updNodeEntry (id : Json) (a : Attrs) (p : Json × Attrs) : Json × Attrs :=
  if p.1 == id then (p.1, dictUpdate p.2 a) else p

/-- `graph.add_node(id, **a)`: on an id collision the existing node's
attribute dict is `update`d with `a`; otherwise the node is appended. -/
def addNode (g : DiGraph) (id : Json) (a : Attrs) : DiGraph :=
  if hasNode g id then
    { g with nodes := g.nodes.map (updNodeEntry id a) }
  else
    { g with nodes := g.nodes ++ [(id, a)] }

/-- `add_edge` first silently creates missing endpoint nodes with empty
attribute dicts. -/
def ensureNode (g : DiGraph) (id : Json) : DiGraph :=
  if hasNode g id then g else { g with nodes := g.nodes ++ [(id, [])] }

/-- `graph.has_edge(u, v)`. -/
def hasEdge (g : DiGraph) (u v : Json) : Bool :=
  g.edges.any (fun e => e.1 == u && e.2.1 == v)

/-- The per-entry effect of an `add_edge` (u, v) collision: the colliding
edge's attribute dict is `update`d, every other edge is untouched. -/
def updEdgeEntry (u v : Json) (a : Attrs) (e : Json × Json × Attrs) : Json × Json × Attrs :=
  if e.1 == u && e.2.1 == v then (e.1, e.2.1, dictUpdate e.2.2 a) else e

/-- `graph.add_edge(u, v, **a)`: creates missing endpoints, then updates the
attribute dict of the (u, v) edge if it exists, else appends the edge.
A `DiGraph` never holds two parallel (u, v) edges. -/
def addEdge (g : DiGraph) (u v : Json) (a : Attrs) : DiGraph :=
  let g1 := ensureNode (ensureNode g u) v
  if hasEdge g1 u v then
    { g1 with edges := g1.edges.map (updEdgeEntry u v a) }
  else
    { g1 with edges := g1.edges ++ [(u, v, a)] }

/-- All edges from `u` to `v` (in the model's list presentation). -/
def edgesBetween (g : DiGraph) (u v : Json) : List (Json × Json × Attrs) :=
  g.edges.filter (fun e => e.1 == u && e.2.1 == v)

/-- The `relationship` attributes carried by the (u, v) edges. -/
def relsBetween (g : DiGraph) (u v : Json) : List (Option Json) :=
  (edgesBetween g u v).map (fun e => dictGet e.2.2 "relationship")

/-- No two edges share an ordered (source, target) pair — an invariant of
every real `networkx` graph, where edges live in a dict keyed by the pair. -/
def EdgeKeysNodup (g : DiGraph) : Prop :=
  (g.edges.map (fun e => (e.1, e.2.1))).Nodup

/-- Python `needle in hay` on strings (substring containment). -/
def strContains (hay needle : String) : Bool :=
  hay.data.tails.any (fun t => needle.data.isPrefixOf t)

/-- Two same-pair `add_edge` calls with different relationship labels on an
otherwise empty graph — C1's scenario. -/
def c1Graph : DiGraph :=
  addEdge (addEdge emptyG (Json.str "A") (Json.str "B")
      [("source", Json.str "A"), ("target", Json.str "B"), ("relationship", Json.str "knows")])
    (Json.str "A") (Json.str "B")
    [("source", Json.str "A"), ("target", Json.str "B"), ("relationship", Json.str "likes")]

/-- A graph with one node X annotated "A" — C3's scenario. -/
def c3Graph : DiGraph := addNode emptyG (Json.str "X") [("_comment", Json.str "A")]

/-- A graph with one node X — C4's witness scenario. -/
def c4Graph : DiGraph := ⟨[(Json.str "X", [("t", Json.num 1)])], []⟩

instance (d : Attrs) : Decidable (NodupKeys d) := by
  unfold NodupKeys
  infer_instance

instance (g : DiGraph) : Decidable (EdgeKeysNodup g) := by
  unfold EdgeKeysNodup
  infer_instance

/-! ### `json.loads`, the regex extraction, and the per-document delta step -/

/-- The opening-brace character (0x7b). -/
def lbraceC : Char := Char.ofNat 123

/-- The closing-brace character (0x7d). -/
def rbraceC : Char := Char.ofNat 125

/-- JSON whitespace skipping (space, tab, LF, CR), as `json.loads` does. -/
def skipWs : List Char → List Char
  | [] => []
  | c :: cs => if c = ' ' ∨ c.toNat = 9 ∨ c.toNat = 10 ∨ c.toNat = 13 then skipWs cs else c :: cs

/-- Hexadecimal digit value, for string escapes. -/
def hexVal (c : Char) : Option Nat :=
  if '0' ≤ c ∧ c ≤ '9' then some (c.toNat - 48)
  else if 'a' ≤ c ∧ c ≤ 'f' then some (c.toNat - 87)
  else if 'A' ≤ c ∧ c ≤ 'F' then some (c.toNat - 55)
  else none

/-- JSON string-body parser (after the opening quote): handles the JSON
escapes and rejects unescaped control characters, as strict `json.loads`
does.  Returns the decoded characters and the remaining input. -/
def parseStrChars : Nat → List Char → Option (List Char × List Char)
  | 0, _ => none
  | fuel+1, cs =>
    match cs with
    | [] => none
    | c :: rest =>
      if c = '"' then some ([], rest)
      else if c = '\\' then
        match rest with
        | [] => none
        | e :: rest2 =>
          if e = '"' ∨ e = '\\' ∨ e = '/' then
            (parseStrChars fuel rest2).map (fun r => (e :: r.1, r.2))
          else if e = 'n' then (parseStrChars fuel rest2).map (fun r => (Char.ofNat 10 :: r.1, r.2))
          else if e = 't' then (parseStrChars fuel rest2).map (fun r => (Char.ofNat 9 :: r.1, r.2))
          else if e = 'r' then (parseStrChars fuel rest2).map (fun r => (Char.ofNat 13 :: r.1, r.2))
          else if e = 'b' then (parseStrChars fuel rest2).map (fun r => (Char.ofNat 8 :: r.1, r.2))
          else if e = 'f' then (parseStrChars fuel rest2).map (fun r => (Char.ofNat 12 :: r.1, r.2))
          else if e = 'u' then
            match rest2 with
            | h1 :: h2 :: h3 :: h4 :: rest3 =>
              match hexVal h1, hexVal h2, hexVal h3, hexVal h4 with
              | some a, some b, some c2, some d =>
                (parseStrChars fuel rest3).map
                  (fun r => (Char.ofNat (((a * 16 + b) * 16 + c2) * 16 + d) :: r.1, r.2))
              | _, _, _, _ => none
            | _ => none
          else none
      else if c.toNat < 32 then none
      else (parseStrChars fuel rest).map (fun r => (c :: r.1, r.2))

/-- Decimal digit run to a natural number. -/
def digitsToNat (ds : List Char) : Nat :=
  ds.foldl (fun acc c => acc * 10 + (c.toNat - 48)) 0

/-- An integer literal as a JSON value. -/
def mkIntJ (neg : Bool) (ds : List Char) : Json :=
  Json.num (if neg then -(digitsToNat ds : Int) else (digitsToNat ds : Int))

/-- Optional exponent part of a JSON number; `([], cs)` when no exponent
marker is present, failure when a marker is present without digits. -/
def parseExpPart (cs : List Char) : Option (List Char × List Char) :=
  match cs with
  | c :: rest =>
    if c = 'e' ∨ c = 'E' then
      match rest with
      | s :: rest2 =>
        if s = '+' ∨ s = '-' then
          let ps := rest2.span Char.isDigit
          if ps.1.isEmpty then none else some (c :: s :: ps.1, ps.2)
        else
          let ps := rest.span Char.isDigit
          if ps.1.isEmpty then none else some (c :: ps.1, ps.2)
      | [] => none
    else some ([], cs)
  | [] => some ([], cs)

/-- JSON number parser (grammar of `json.loads`: optional minus, integer
part without leading zeros, optional fraction, optional exponent).
Integers become `Json.num`; anything with a fraction or exponent is a float
and is kept symbolically as its literal text. -/
def parseNumber (cs : List Char) : Option (Json × List Char) :=
  let pneg : Bool × List Char :=
    match cs with
    | c :: rest => if c = '-' then (true, rest) else (false, cs)
    | [] => (false, cs)
  let pds := pneg.2.span Char.isDigit
  if pds.1.isEmpty then none
  else if 1 < pds.1.length ∧ pds.1.headD '0' = '0' then none
  else
    match pds.2 with
    | c :: rest =>
      if c = '.' then
        let pfs := rest.span Char.isDigit
        if pfs.1.isEmpty then none
        else
          match parseExpPart pfs.2 with
          | some (es, cs4) =>
            some (Json.fnum (String.mk ((if pneg.1 then ['-'] else []) ++ pds.1 ++ c :: pfs.1 ++ es)), cs4)
          | none => none
      else if c = 'e' ∨ c = 'E' then
        match parseExpPart pds.2 with
        | some (es, cs4) =>
          some (Json.fnum (String.mk ((if pneg.1 then ['-'] else []) ++ pds.1 ++ es)), cs4)
        | none => none
      else some (mkIntJ pneg.1 pds.1, pds.2)
    | [] => some (mkIntJ pneg.1 pds.1, [])

mutual

/-- Recursive-descent JSON value parser (fuel-indexed; `jsonLoads` supplies
enough fuel for any input).  Mirrors `json.loads` including the Python
extensions NaN / Infinity / -Infinity. -/
def parseJ : Nat → List Char → Option (Json × List Char)
  | 0, _ => none
  | fuel+1, cs0 =>
    match skipWs cs0 with
    | [] => none
    | c :: rest =>
      if c = lbraceC then
        match skipWs rest with
        | d :: rest1 =>
          if d = rbraceC then some (Json.obj [], rest1)
          else parseMembersJ fuel (skipWs rest) []
        | [] => none
      else if c = '[' then
        match skipWs rest with
        | d :: rest1 =>
          if d = ']' then some (Json.arr [], rest1)
          else parseItemsJ fuel (skipWs rest) []
        | [] => none
      else if c = '"' then
        (parseStrChars (rest.length + 1) rest).map (fun r => (Json.str (String.mk r.1), r.2))
      else if c = 't' then
        if ['r', 'u', 'e'].isPrefixOf rest then some (Json.bool true, rest.drop 3) else none
      else if c = 'f' then
        if ['a', 'l', 's', 'e'].isPrefixOf rest then some (Json.bool false, rest.drop 4) else none
      else if c = 'n' then
        if ['u', 'l', 'l'].isPrefixOf rest then some (Json.null, rest.drop 3) else none
      else if c = 'N' then
        if ['a', 'N'].isPrefixOf rest then some (Json.fnum "NaN", rest.drop 2) else none
      else if c = 'I' then
        if ['n', 'f', 'i', 'n', 'i', 't', 'y'].isPrefixOf rest then
          some (Json.fnum "Infinity", rest.drop 7)
        else none
      else if c = '-' ∧ ['I', 'n', 'f', 'i', 'n', 'i', 't', 'y'].isPrefixOf rest then
        some (Json.fnum "-Infinity", rest.drop 8)
      else parseNumber (c :: rest)

/-- Object-member loop: `"key" : value` separated by commas, closed by
the closing brace.  Members accumulate with Python-dict insertion. -/
def parseMembersJ : Nat → List Char → List (String × Json) → Option (Json × List Char)
  | 0, _, _ => none
  | fuel+1, cs0, acc =>
    match skipWs cs0 with
    | c :: rest =>
      if c = '"' then
        match parseStrChars (rest.length + 1) rest with
        | some (kChars, r1) =>
          match skipWs r1 with
          | d :: r3 =>
            if d = ':' then
              match parseJ fuel r3 with
              | some (v, r4) =>
                match skipWs r4 with
                | e2 :: r6 =>
                  if e2 = ',' then parseMembersJ fuel r6 (dictInsert acc (String.mk kChars) v)
                  else if e2 = rbraceC then some (Json.obj (dictInsert acc (String.mk kChars) v), r6)
                  else none
                | [] => none
              | none => none
            else none
          | [] => none
        | none => none
      else none
    | [] => none

/-- Array-item loop: values separated by commas, closed by a bracket. -/
def parseItemsJ : Nat → List Char → List Json → Option (Json × List Char)
  | 0, _, _ => none
  | fuel+1, cs0, acc =>
    match parseJ fuel cs0 with
    | some (v, r1) =>
      match skipWs r1 with
      | c :: r3 =>
        if c = ',' then parseItemsJ fuel r3 (acc ++ [v])
        else if c = ']' then some (Json.arr (acc ++ [v]), r3)
        else none
      | [] => none
    | none => none

end

/-- `json.loads`: parse the whole string as one JSON value, rejecting
trailing garbage; `none` models the raised `JSONDecodeError`. -/
def jsonLoads (s : String) : Option Json :=
  match parseJ (2 * s.data.length + 2) s.data with
  | some (j, r) => if skipWs r = [] then some j else none
  | none => none

/-- Longest prefix of the input ending at its last closing brace. -/
def takeToLastRBrace : List Char → Option (List Char)
  | [] => none
  | c :: rest =>
    match takeToLastRBrace rest with
    | some t => some (c :: t)
    | none => if c = rbraceC then some [c] else none

/-- `re.search(r"\x7b[\s\S]*\x7d", data)`: the leftmost-greedy match runs
from the first opening brace to the last closing brace after it. -/
def reSearchBraces (cs : List Char) : Option (List Char) :=
  match cs.dropWhile (fun c => c ≠ lbraceC) with
  | [] => none
  | c :: rest => (takeToLastRBrace rest).map (fun t => c :: t)

/-- The string handed to `json.loads` in `main` / `run_pipeline`: the regex
match when one exists, otherwise the whole response text. -/
def candidateOf (s : String) : String :=
  match reSearchBraces s.data with
  | some cs => String.mk cs
  | none => s

/-- Python iteration over the value bound to "nodes"/"edges": lists yield
elements, strings yield 1-character strings, dicts yield their keys;
anything else raises `TypeError` (`none`). -/
def pyIter : Json → Option (List Json)
  | Json.arr xs => some xs
  | Json.str s => some (s.data.map (fun c => Json.str (String.mk [c])))
  | Json.obj kvs => some (kvs.map (fun p => Json.str p.1))
  | _ => none

/-- The `for node in new_data.get("nodes", [])` loop: each entry must be a
dict with an "id" key holding a hashable value; the first bad entry raises
(second component `false`) and leaves the graph as mutated so far. -/
def applyNodesLoop (g : DiGraph) : List Json → DiGraph × Bool
  | [] => (g, true)
  | n :: rest =>
    match n with
    | Json.obj kvs =>
      match dictGet kvs "id" with
      | some idv =>
        if hashableJ idv then applyNodesLoop (addNode g idv kvs) rest
        else (g, false)
      | none => (g, false)
    | _ => (g, false)

/-- The `for edge in new_data.get("edges", [])` loop, analogously with
"source" and "target" keys. -/
def applyEdgesLoop (g : DiGraph) : List Json → DiGraph × Bool
  | [] => (g, true)
  | e2 :: rest =>
    match e2 with
    | Json.obj kvs =>
      match dictGet kvs "source", dictGet kvs "target" with
      | some u, some v =>
        if hashableJ u && hashableJ v then applyEdgesLoop (addEdge g u v kvs) rest
        else (g, false)
      | _, _ => (g, false)
    | _ => (g, false)

/-- `d.get(k, v)` with a default. -/
def dictGetD (d : Attrs) (k : String) (v : Json) : Json :=
  (dictGet d k).getD v

/-- Applying one parsed delta inside the try block: nodes first, then edges;
a raised error anywhere stops the loops but keeps prior mutations (the
`except` in `main` only logs).  A non-dict delta raises before any mutation
(`.get` on a non-dict is an `AttributeError`). -/
def applyDelta (g : DiGraph) (d : Json) : DiGraph × Bool :=
  match d with
  | Json.obj kvs =>
    match pyIter (dictGetD kvs "nodes" (Json.arr [])) with
    | none => (g, false)
    | some ns =>
      let r1 := applyNodesLoop g ns
      if r1.2 then
        match pyIter (dictGetD kvs "edges" (Json.arr [])) with
        | none => (r1.1, false)
        | some es => applyEdgesLoop r1.1 es
      else r1
  | _ => (g, false)

/-- One document's oracle response, from received text to graph mutation:
extract the brace-delimited block (or use the whole text), `json.loads` it,
and apply the delta; any raised error is caught (`false`), leaving the
graph as mutated so far. -/
def processResponse (g : DiGraph) (data : String) : DiGraph × Bool :=
  match jsonLoads (candidateOf data) with
  | some j => applyDelta g j
  | none => (g, false)

/-- The sequential reasoner loop over successful responses: each document's
delta is applied to the graph left by the previous one; failures never
abort the loop. -/
def runDocs (g : DiGraph) : List String → DiGraph
  | [] => g
  | d :: ds => runDocs (processResponse g d).1 ds

/-- A response whose JSON parses but whose second node entry lacks the
required "id" key — C2's scenario. -/
def c2BadResponse : String :=
  "\x7b\"nodes\":[\x7b\"id\":\"a\",\"type\":\"person\"\x7d,\x7b\"type\":\"email\"\x7d],\"edges\":[]\x7d"

/-! ### Link categorization and the fast-tier/escalation dispatch -/

/-- The configured skip list (`SKIP_DOMAINS` in osaint.py). -/
def SKIP_DOMAINS : List String := ["linkedin.com", "facebook.com"]

/-- Valid characters of a URL scheme for `urlparse`. -/
def isSchemeChar (c : Char) : Bool :=
  c.isAlpha || c.isDigit || c = '+' || c = '-' || c = '.'

/-- Strip a leading `scheme:` when present, as `urlparse` does (the scheme
must be nonempty, start with a letter, and use only scheme characters). -/
def removeScheme (cs : List Char) : List Char :=
  let ps := cs.span (fun c => c ≠ ':')
  match ps.2 with
  | _ :: rest =>
    if ps.1.all isSchemeChar && (match ps.1 with | p :: _ => p.isAlpha | [] => false) then rest
    else cs
  | [] => cs

/-- `urlparse(link).netloc`: present only after a leading "//", running up
to the next '/', '?' or '#'. -/
def netloc (s : String) : String :=
  match removeScheme s.data with
  | a :: b :: rest =>
    if a = '/' ∧ b = '/' then
      String.mk (rest.takeWhile (fun c => ¬(c = '/' ∨ c = '?' ∨ c = '#')))
    else ""
  | _ => ""

/-- The categorization test of `categorize_links`:
`any(skip_domain in domain for skip_domain in SKIP_DOMAINS)`. -/
def skipListed (link : String) : Bool :=
  SKIP_DOMAINS.any (fun d => strContains (netloc link) d)

/-- `categorize_links`: returns (links_to_skip, links_to_process),
preserving order. -/
def categorize_links : List String → List String × List String
  | [] => ([], [])
  | link :: rest =>
    let r := categorize_links rest
    if skipListed link then (link :: r.1, r.2) else (r.1, link :: r.2)

/-- One search-results batch of the Dispatcher loop in `main`: fast-tier
fetches (modelled by their outcome `fetch`) run only on the processable
links; successes are collected as scraped results and failures are added to
the escalation set, followed by the skip-listed links
(`special_links.extend(links_to_skip)`).  Returns (scraped results,
escalation inputs). -/
def processBatch (fetch : String → Option String) (links : List String) :
    List (String × String) × List String :=
  let c := categorize_links links
  let scraped := c.2.filterMap (fun l => (fetch l).map (fun md => (l, md)))
  let failures := c.2.filter (fun l => (fetch l).isNone)
  (scraped, failures ++ c.1)

/-! ### `scrape_google_page` exception handling (C6) -/

/-- The exceptions that reach `scrape_google_page`'s handlers: the two
signaled conditions from `util/scraper.py` and any other `Exception`. -/
inductive PyExc where
  | rateLimited : PyExc
  | captchaDetected : PyExc
  | otherExc : PyExc
deriving DecidableEq

/-- Exception-class expressions usable in an `except` clause. -/
inductive ExcClass where
  | RateLimitedC : ExcClass
  | CaptchaDetectedC : ExcClass
  | ExceptionC : ExcClass
deriving DecidableEq

/-- Python truthiness of a class object: always true. -/
def classTruthy (_ : ExcClass) : Bool := true

/-- Python `or` on exception classes: the first operand when truthy, else
the second — class objects are truthy, so `A or B` evaluates to `A`. -/
def pyOr (a b : ExcClass) : ExcClass :=
  if classTruthy a then a else b

/-- `except C:` matching: an instance is caught when its class is `C` or a
subclass (every modelled exception subclasses `Exception`). -/
def matchesExc (c : ExcClass) (e2 : PyExc) : Bool :=
  match c, e2 with
  | ExcClass.RateLimitedC, PyExc.rateLimited => true
  | ExcClass.RateLimitedC, _ => false
  | ExcClass.CaptchaDetectedC, PyExc.captchaDetected => true
  | ExcClass.CaptchaDetectedC, _ => false
  | ExcClass.ExceptionC, _ => true

/-- What one `scrape_google_page` call produced: the returned links and
whether the scrape.do raw-markup fallback was invoked. -/
structure SgpOut where
  links : List String
  fellBack : Bool
deriving DecidableEq

/-- `scrape_google_page`, parameterized over the slow-retrieval outcome, the
`scrape_do_no_md` fallback outcome, and link extraction from markup.  The
first handler is literally `except RateLimited or CaptchaDetected:`, whose
class expression Python evaluates with `or` before matching; a non-matching
exception falls to the generic `except Exception` handler, which logs and
ends with `return []`. -/
def scrape_google_page (slow : Except PyExc String) (fallback : Except PyExc String)
    (extract : String → List String) : SgpOut :=
  match slow with
  | Except.ok html => ⟨extract html, false⟩
  | Except.error e2 =>
    if matchesExc (pyOr ExcClass.RateLimitedC ExcClass.CaptchaDetectedC) e2 then
      match fallback with
      | Except.ok html => ⟨extract html, true⟩
      | Except.error _ => ⟨[], true⟩
    else ⟨[], false⟩

/-! ### Associated identifiers (`get_person_details` / the selection block of `main`) -/

/-- `graph.neighbors(id)`: the successors of `id` in the DiGraph. -/
def neighbors (g : DiGraph) (id : Json) : List Json :=
  (g.edges.filter (fun e2 => e2.1 == id)).map (fun e2 => e2.2.1)

/-- The `associated` dict of sets: email, username, phone.  Python sets are
modelled as finite sets (membership and deduplication are what the claims
use; Python set iteration order is unspecified anyway). -/
structure Assoc where
  email : Finset Json
  username : Finset Json
  phone : Finset Json
deriving DecidableEq

/-- `{"email": set(), "username": set(), "phone": set()}`. -/
def emptyAssoc : Assoc := ⟨∅, ∅, ∅⟩

/-- `associated[t].add(lbl)` for `t` one of the three keys. -/
def addIdent (a : Assoc) (t lbl : Json) : Assoc :=
  if t = Json.str "email" then { a with email := insert lbl a.email }
  else if t = Json.str "username" then { a with username := insert lbl a.username }
  else if t = Json.str "phone" then { a with phone := insert lbl a.phone }
  else a

/-- One iteration of the inner two-hop loop over a social-media node's
neighbors: `sm_type in ("email", "username")` is tuple membership (plain
equality), and `set.add` raises `TypeError` (`none`) on an unhashable
label. -/
def smStep (g : DiGraph) (a : Assoc) (nb : Json) : Option Assoc :=
  if pyGet (nodeAttrs g nb) "type" = Json.str "email"
      ∨ pyGet (nodeAttrs g nb) "type" = Json.str "username" then
    if hashableJ (pyGet (nodeAttrs g nb) "label") then
      some (addIdent a (pyGet (nodeAttrs g nb) "type") (pyGet (nodeAttrs g nb) "label"))
    else none
  else some a

/-- The inner two-hop loop. -/
def smFold (g : DiGraph) (a : Assoc) : List Json → Option Assoc
  | [] => some a
  | n :: rest =>
    match smStep g a n with
    | some a1 => smFold g a1 rest
    | none => none

/-- The direct-association branch of the outer loop
(`if node_type in associated: associated[node_type].add(...)`). -/
def nbStepDirect (g : DiGraph) (a : Assoc) (nb : Json) : Option Assoc :=
  if pyGet (nodeAttrs g nb) "type" = Json.str "email"
      ∨ pyGet (nodeAttrs g nb) "type" = Json.str "username"
      ∨ pyGet (nodeAttrs g nb) "type" = Json.str "phone" then
    if hashableJ (pyGet (nodeAttrs g nb) "label") then
      some (addIdent a (pyGet (nodeAttrs g nb) "type") (pyGet (nodeAttrs g nb) "label"))
    else none
  else some a

/-- One iteration of the outer loop over the selected node's neighbors:
`node_type in associated` hashes `node_type` (`TypeError` on lists/dicts),
a direct email/username/phone neighbor contributes its label
(`nbStepDirect`), and a social_media neighbor triggers the inner two-hop
loop. -/
def nbStep (g : DiGraph) (a : Assoc) (nb : Json) : Option Assoc :=
  if hashableJ (pyGet (nodeAttrs g nb) "type") then
    match nbStepDirect g a nb with
    | some a1 =>
      if pyGet (nodeAttrs g nb) "type" = Json.str "social_media" then
        smFold g a1 (neighbors g nb)
      else some a1
    | none => none
  else none

/-- The outer loop. -/
def nbFold (g : DiGraph) (a : Assoc) : List Json → Option Assoc
  | [] => some a
  | n :: rest =>
    match nbStep g a n with
    | some a1 => nbFold g a1 rest
    | none => none

/-- The associated-identifier collection of `get_person_details` (and the
identical block of `main`) for a selected node; `none` models an uncaught
`TypeError`. -/
def associatedOf (g : DiGraph) (sel : Json) : Option Assoc :=
  nbFold g emptyAssoc (neighbors g sel)

/-- A person connected to a social-media node connected to an email node —
C9's witness scenario. -/
def c9Graph : DiGraph :=
  addEdge (addEdge (addNode (addNode (addNode emptyG
            (Json.str "p") [("type", Json.str "person"), ("label", Json.str "Jane Doe")])
          (Json.str "s") [("type", Json.str "social_media"), ("label", Json.str "@jd")])
        (Json.str "e") [("type", Json.str "email"), ("label", Json.str "a@b.c")])
      (Json.str "p") (Json.str "s") [("relationship", Json.str "has_account")])
    (Json.str "s") (Json.str "e") [("relationship", Json.str "registered_with")]

/-- The associated sets computed on `c9Graph` for node p. -/
def c9Assoc : Assoc := ⟨{Json.str "a@b.c"}, ∅, ∅⟩

/-! ### Person selection (C10) -/

/-- Python `target in x`: substring test on strings, element test on lists,
key test on dicts; `TypeError` (`none`) on None, booleans and numbers. -/
def pyIn (t : String) : Json → Option Bool
  | Json.str s => some (strContains s t)
  | Json.arr xs => some (xs.contains (Json.str t))
  | Json.obj kvs => some (kvs.any (fun p => p.1 == t))
  | _ => none

/-- The person-selection comprehension at the end of `run_pipeline` (and
`main`): keep nodes whose type is "person" and whose label contains the
target; evaluating `target in data.get("label")` on a missing label raises
`TypeError` (`none`), aborting the comprehension. -/
def selectPersons (target : String) : List (Json × Attrs) → Option (List (Json × Attrs))
  | [] => some []
  | (id, d) :: rest =>
    if pyGet d "type" = Json.str "person" then
      match pyIn target (pyGet d "label") with
      | none => none
      | some b =>
        match selectPersons target rest with
        | none => none
        | some l => some (if b then (id, d) :: l else l)
    else selectPersons target rest

/-- The `person_nodes` computation over the assembled graph. -/
def run_pipeline_personSelect (target : String) (g : DiGraph) : Option (List (Json × Attrs)) :=
  selectPersons target g.nodes

/-- A graph holding a person node with no label — C10's scenario. -/
def c10Graph : DiGraph := ⟨[(Json.str "p1", [("type", Json.str "person")])], []⟩

/-! ### Dictionary lemmas -/
theorem find?_map_keyUpd {A B : Type} [BEq A] (l : List (A × B)) (k : A) (f : A × B → B) :
    (l.map (fun p => if p.1 == k then (p.1, f p) else p)).find? (fun p => p.1 == k)
      = (l.find? (fun p => p.1 == k)).map (fun p => (p.1, f p)) := by
  induction l with
  | nil => rfl
  | cons p rest ih =>
    cases hp : p.1 == k with
    | true => simp [List.find?, hp]
    | false => simp [List.find?, hp, ih]

theorem find?_map_keyUpd_ne {A B : Type} [BEq A] [LawfulBEq A] (l : List (A × B)) (k : A)
    (f : A × B → B) (k' : A) (h : k' ≠ k) :
    (l.map (fun p => if p.1 == k then (p.1, f p) else p)).find? (fun p => p.1 == k')
      = l.find? (fun p => p.1 == k') := by
  induction l with
  | nil => rfl
  | cons p rest ih =>
    cases hp : p.1 == k with
    | true =>
      have hpk : p.1 = k := by simpa using hp
      have hp' : (p.1 == k') = false := by simp [hpk, beq_iff_eq]; exact Ne.symm h
      simp [List.find?, hp, hp', ih]
    | false =>
      cases hp' : p.1 == k' with
      | true => simp [List.find?, hp, hp']
      | false => simp [List.find?, hp, hp', ih]

theorem dictGet_eq_none_iff (d : Attrs) (k : String) :
    dictGet d k = none ↔ k ∉ d.map Prod.fst := by
  induction d with
  | nil => simp [dictGet]
  | cons p rest ih =>
    cases hp : p.1 == k with
    | true =>
      have hpk : p.1 = k := by simpa using hp
      simp [dictGet, List.find?, hp, hpk]
    | false =>
      have hpk : p.1 ≠ k := by simpa using hp
      simp only [dictGet, List.find?, hp, List.map_cons, List.mem_cons]
      rw [show ((rest.find? (fun p => p.1 == k)).map (fun p => p.2) = none ↔ k ∉ rest.map Prod.fst) from ih]
      constructor
      · intro hr hmem
        rcases hmem with hmem | hmem
        · exact hpk hmem.symm
        · exact hr hmem
      · intro hmem hr
        exact hmem (Or.inr hr)

theorem dictGet_dictInsert_self (d : Attrs) (k : String) (v : Json) :
    dictGet (dictInsert d k v) k = some v := by
  unfold dictInsert
  cases h : dictHasKey d k with
  | true =>
    simp only [if_true]
    have hfind : (d.find? (fun p => p.1 == k)).isSome = true := by
      rw [List.find?_isSome]
      simpa [dictHasKey, List.any_eq_true] using h
    obtain ⟨q, hq⟩ := Option.isSome_iff_exists.1 hfind
    unfold dictGet
    refine (congrArg (Option.map fun p => p.2) (find?_map_keyUpd (B := Json) d k (fun _ => v))).trans ?_
    rw [hq]
    rfl
  | false =>
    simp only [Bool.false_eq_true, if_false]
    have hfind : d.find? (fun p => p.1 == k) = none := by
      rw [List.find?_eq_none]
      intro p hp hk
      have : dictHasKey d k = true := by
        simp only [dictHasKey, List.any_eq_true]
        exact ⟨p, hp, hk⟩
      simp [h] at this
    simp [dictGet, List.find?_append, hfind, List.find?]

theorem dictGet_dictInsert_ne (d : Attrs) (k : String) (v : Json) (k' : String) (h : k' ≠ k) :
    dictGet (dictInsert d k v) k' = dictGet d k' := by
  unfold dictInsert
  cases hk : dictHasKey d k with
  | true =>
    simp only [if_true]
    unfold dictGet
    exact congrArg (Option.map fun p => p.2) (find?_map_keyUpd_ne (B := Json) d k (fun _ => v) k' h)
  | false =>
    have : ((k, v).1 == k') = false := by simp [beq_iff_eq]; exact Ne.symm h
    simp [dictGet, List.find?_append, List.find?, this]

theorem dictGet_dictUpdate_of_none (old new : Attrs) (k : String)
    (h : dictGet new k = none) : dictGet (dictUpdate old new) k = dictGet old k := by
  induction new generalizing old with
  | nil => rfl
  | cons p rest ih =>
    cases hp : p.1 == k with
    | true => simp [dictGet, List.find?, hp] at h
    | false =>
      have hrest : dictGet rest k = none := by
        simpa [dictGet, List.find?, hp] using h
      have hne : k ≠ p.1 := fun hk => by simp [hk] at hp
      calc dictGet (dictUpdate old (p :: rest)) k
          = dictGet (dictUpdate (dictInsert old p.1 p.2) rest) k := rfl
        _ = dictGet (dictInsert old p.1 p.2) k := ih _ hrest
        _ = dictGet old k := dictGet_dictInsert_ne _ _ _ _ hne

theorem dictGet_dictUpdate_of_some (old new : Attrs) (k : String) (v : Json)
    (hnd : NodupKeys new) (h : dictGet new k = some v) :
    dictGet (dictUpdate old new) k = some v := by
  induction new generalizing old with
  | nil => simp [dictGet] at h
  | cons p rest ih =>
    have hnd2 : p.1 ∉ rest.map Prod.fst ∧ NodupKeys rest := by
      simpa [NodupKeys, List.nodup_cons] using hnd
    cases hp : p.1 == k with
    | true =>
      have hkey : p.1 = k := by simpa using hp
      have hv : v = p.2 := by
        simp [dictGet, List.find?, hp] at h
        exact h.symm
      have hrest : dictGet rest k = none :=
        (dictGet_eq_none_iff rest k).2 (by rw [← hkey]; exact hnd2.1)
      calc dictGet (dictUpdate old (p :: rest)) k
          = dictGet (dictUpdate (dictInsert old p.1 p.2) rest) k := rfl
        _ = dictGet (dictInsert old p.1 p.2) k := dictGet_dictUpdate_of_none _ _ _ hrest
        _ = some p.2 := by rw [hkey]; exact dictGet_dictInsert_self _ _ _
        _ = some v := by rw [hv]
    | false =>
      have hrest : dictGet rest k = some v := by
        simpa [dictGet, List.find?, hp] using h
      exact ih _ hnd2.2 hrest

/-! ### Graph-operation lemmas -/
theorem updNodeEntry_fst (id : Json) (a : Attrs) (p : Json × Attrs) :
    (updNodeEntry id a p).1 = p.1 := by
  unfold updNodeEntry
  split <;> rfl

theorem updEdgeEntry_key (u v : Json) (a : Attrs) (e : Json × Json × Attrs) :
    ((updEdgeEntry u v a e).1, (updEdgeEntry u v a e).2.1) = (e.1, e.2.1) := by
  unfold updEdgeEntry
  cases hp : e.1 == u && e.2.1 == v with
  | true =>
    have h1 : e.1 = u := by simp [Bool.and_eq_true] at hp; exact hp.1
    have h2 : e.2.1 = v := by simp [Bool.and_eq_true] at hp; exact hp.2
    simp [hp, h1, h2]
  | false => simp [hp]

theorem find?_map_updNodeEntry (l : List (Json × Attrs)) (id : Json) (a : Attrs) :
    (l.map (updNodeEntry id a)).find? (fun p => p.1 == id)
      = (l.find? (fun p => p.1 == id)).map (fun p => (p.1, dictUpdate p.2 a)) := by
  induction l with
  | nil => rfl
  | cons p rest ih =>
    cases hp : p.1 == id with
    | true =>
      have hupd : updNodeEntry id a p = (p.1, dictUpdate p.2 a) := by
        simp [updNodeEntry, hp]
      rw [List.map_cons, hupd]
      rw [List.find?_cons_of_pos _ (by simpa using hp),
          show List.find? (fun q => q.1 == id) (p :: rest) = some p from
            List.find?_cons_of_pos _ hp]
      rfl
    | false =>
      have hupd : updNodeEntry id a p = p := by
        simp [updNodeEntry, hp]
      rw [List.map_cons, hupd]
      rw [List.find?_cons_of_neg _ (by simp [hp]), List.find?_cons_of_neg _ (by simp [hp]), ih]

theorem nodeCount_addNode_has (g : DiGraph) (id : Json) (a : Attrs)
    (h : hasNode g id = true) : nodeCount (addNode g id a) = nodeCount g := by
  simp [addNode, h, nodeCount]

theorem nodeAttrs_addNode_has (g : DiGraph) (id : Json) (a : Attrs)
    (h : hasNode g id = true) :
    nodeAttrs (addNode g id a) id = dictUpdate (nodeAttrs g id) a := by
  have hfind : (g.nodes.find? (fun p => p.1 == id)).isSome = true := by
    rw [List.find?_isSome]
    simpa [hasNode, List.any_eq_true] using h
  obtain ⟨q, hq⟩ := Option.isSome_iff_exists.1 hfind
  unfold addNode
  simp only [h, if_true]
  unfold nodeAttrs
  dsimp only
  rw [find?_map_updNodeEntry, hq]
  rfl

theorem addNode_fresh_nodes (g : DiGraph) (id : Json) (a : Attrs)
    (h : hasNode g id = false) : (addNode g id a).nodes = g.nodes ++ [(id, a)] := by
  simp [addNode, h]

theorem nodeCount_addNode_fresh (g : DiGraph) (id : Json) (a : Attrs)
    (h : hasNode g id = false) : nodeCount (addNode g id a) = nodeCount g + 1 := by
  simp [nodeCount, addNode_fresh_nodes g id a h]

theorem find?_nodes_eq_none (g : DiGraph) (id : Json) (h : hasNode g id = false) :
    g.nodes.find? (fun p => p.1 == id) = none := by
  rw [List.find?_eq_none]
  intro p hp hk
  have : hasNode g id = true := by
    simp only [hasNode, List.any_eq_true]
    exact ⟨p, hp, hk⟩
  simp [h] at this

theorem nodeAttrs_addNode_fresh (g : DiGraph) (id : Json) (a : Attrs)
    (h : hasNode g id = false) : nodeAttrs (addNode g id a) id = a := by
  unfold nodeAttrs
  rw [addNode_fresh_nodes g id a h, List.find?_append, find?_nodes_eq_none g id h]
  simp [List.find?]

theorem hasNode_addNode_self (g : DiGraph) (id : Json) (a : Attrs) :
    hasNode (addNode g id a) id = true := by
  cases h : hasNode g id with
  | true =>
    unfold addNode
    simp only [h, if_true]
    simp only [hasNode, List.any_eq_true] at h ⊢
    obtain ⟨p, hp, hpk⟩ := h
    refine ⟨updNodeEntry id a p, List.mem_map.2 ⟨p, hp, rfl⟩, ?_⟩
    rw [updNodeEntry_fst]
    exact hpk
  | false =>
    unfold addNode
    simp only [h, Bool.false_eq_true, if_false]
    simp [hasNode, List.any_append, List.any_cons]

theorem ensureNode_edges (g : DiGraph) (x : Json) : (ensureNode g x).edges = g.edges := by
  unfold ensureNode
  split <;> rfl

theorem addEdge_edges (g : DiGraph) (u v : Json) (a : Attrs) :
    (addEdge g u v a).edges =
      if hasEdge g u v = true then g.edges.map (updEdgeEntry u v a)
      else g.edges ++ [(u, v, a)] := by
  have h1 : (ensureNode (ensureNode g u) v).edges = g.edges := by
    rw [ensureNode_edges, ensureNode_edges]
  have h2 : hasEdge (ensureNode (ensureNode g u) v) u v = hasEdge g u v := by
    simp [hasEdge, h1]
  unfold addEdge
  simp only [h2]
  split
  · simp only [h1]
  · simp only [h1]

theorem filter_map_updEdgeEntry (l : List (Json × Json × Attrs)) (u v : Json) (a : Attrs) :
    (l.map (updEdgeEntry u v a)).filter (fun e => e.1 == u && e.2.1 == v)
      = (l.filter (fun e => e.1 == u && e.2.1 == v)).map
          (fun e => (e.1, e.2.1, dictUpdate e.2.2 a)) := by
  induction l with
  | nil => rfl
  | cons e rest ih =>
    cases hp : e.1 == u && e.2.1 == v with
    | true =>
      have hupd : updEdgeEntry u v a e = (e.1, e.2.1, dictUpdate e.2.2 a) := by
        simp [updEdgeEntry, hp]
      rw [List.map_cons, hupd]
      rw [List.filter_cons_of_pos (by simpa using hp),
          show (e :: rest).filter (fun e => e.1 == u && e.2.1 == v)
              = e :: rest.filter (fun e => e.1 == u && e.2.1 == v) from
            List.filter_cons_of_pos hp]
      rw [List.map_cons, ih]
    | false =>
      have hupd : updEdgeEntry u v a e = e := by
        simp [updEdgeEntry, hp]
      rw [List.map_cons, hupd]
      rw [List.filter_cons_of_neg (by simp [hp]),
          show (e :: rest).filter (fun e => e.1 == u && e.2.1 == v)
              = rest.filter (fun e => e.1 == u && e.2.1 == v) from
            List.filter_cons_of_neg (by simp [hp]),
          ih]

theorem edgesBetween_eq_nil (g : DiGraph) (u v : Json) (h : hasEdge g u v = false) :
    edgesBetween g u v = [] := by
  simp only [edgesBetween, List.filter_eq_nil_iff]
  intro e he hp
  have : hasEdge g u v = true := by
    simp only [hasEdge, List.any_eq_true]
    exact ⟨e, he, hp⟩
  simp [h] at this

theorem hasEdge_false_of_key_not_mem (g : DiGraph) (u v : Json)
    (h : hasEdge g u v = false) : (u, v) ∉ g.edges.map (fun e => (e.1, e.2.1)) := by
  intro hmem
  obtain ⟨e, he, hkey⟩ := List.mem_map.1 hmem
  have h1 : e.1 = u := congrArg Prod.fst hkey
  have h2 : e.2.1 = v := congrArg Prod.snd hkey
  have : hasEdge g u v = true := by
    simp only [hasEdge, List.any_eq_true]
    exact ⟨e, he, by simp [h1, h2]⟩
  simp [h] at this

theorem EdgeKeysNodup_addEdge (g : DiGraph) (u v : Json) (a : Attrs)
    (h : EdgeKeysNodup g) : EdgeKeysNodup (addEdge g u v a) := by
  unfold EdgeKeysNodup
  rw [addEdge_edges]
  cases he : hasEdge g u v with
  | true =>
    simp only [if_true]
    rw [List.map_map]
    have : g.edges.map ((fun e => ((e : Json × Json × Attrs).1, e.2.1)) ∘ updEdgeEntry u v a)
        = g.edges.map (fun e => (e.1, e.2.1)) := by
      apply List.map_congr_left
      intro e _
      exact updEdgeEntry_key u v a e
    rw [this]
    exact h
  | false =>
    simp only [Bool.false_eq_true, if_false]
    rw [List.map_append, List.nodup_append]
    refine ⟨h, by simp, ?_⟩
    intro x hx hx2
    have : x = (u, v) := by simpa using hx2
    exact hasEdge_false_of_key_not_mem g u v he (this ▸ hx)

theorem filter_key_singleton (l : List (Json × Json × Attrs)) (u v : Json)
    (hnd : (l.map (fun e => (e.1, e.2.1))).Nodup)
    (he : ∃ x ∈ l, (x.1 == u && x.2.1 == v) = true) :
    ∃ w, l.filter (fun e => e.1 == u && e.2.1 == v) = [(u, v, w)] := by
  induction l with
  | nil => simp at he
  | cons e rest ih =>
    rw [List.map_cons, List.nodup_cons] at hnd
    cases hp : e.1 == u && e.2.1 == v with
    | true =>
      have hp2 : e.1 = u ∧ e.2.1 = v := by simpa using hp
      refine ⟨e.2.2, ?_⟩
      rw [show (e :: rest).filter (fun x => x.1 == u && x.2.1 == v)
            = e :: rest.filter (fun x => x.1 == u && x.2.1 == v) from
          List.filter_cons_of_pos hp]
      have hrest : rest.filter (fun x => x.1 == u && x.2.1 == v) = [] := by
        rw [List.filter_eq_nil_iff]
        intro x hx hxp
        have hx2 : x.1 = u ∧ x.2.1 = v := by simpa using hxp
        apply hnd.1
        rw [hp2.1, hp2.2]
        exact List.mem_map.2 ⟨x, hx, by rw [hx2.1, hx2.2]⟩
      rw [hrest, ← hp2.1, ← hp2.2]
    | false =>
      rw [List.filter_cons_of_neg (by simp [hp])]
      apply ih hnd.2
      obtain ⟨x, hx, hxp⟩ := he
      rcases List.mem_cons.1 hx with rfl | hx2
      · rw [hxp] at hp
        exact absurd hp (by simp)
      · exact ⟨x, hx2, hxp⟩

theorem edgesBetween_singleton_of (g : DiGraph) (u v : Json)
    (hnd : EdgeKeysNodup g) (he : hasEdge g u v = true) :
    ∃ w, edgesBetween g u v = [(u, v, w)] := by
  unfold edgesBetween
  refine filter_key_singleton g.edges u v hnd ?_
  simpa [hasEdge, List.any_eq_true] using he

theorem edgesBetween_addEdge_fresh (g : DiGraph) (u v : Json) (a : Attrs)
    (h : hasEdge g u v = false) :
    edgesBetween (addEdge g u v a) u v = [(u, v, a)] := by
  unfold edgesBetween
  rw [addEdge_edges]
  simp only [h, Bool.false_eq_true, if_false]
  rw [List.filter_append]
  have h0 : g.edges.filter (fun e => e.1 == u && e.2.1 == v) = [] :=
    edgesBetween_eq_nil g u v h
  rw [h0]
  simp

theorem edgesBetween_addEdge_update (g : DiGraph) (u v : Json) (a x : Attrs)
    (hx : edgesBetween g u v = [(u, v, x)]) :
    edgesBetween (addEdge g u v a) u v = [(u, v, dictUpdate x a)] := by
  have he : hasEdge g u v = true := by
    cases heq : hasEdge g u v with
    | true => rfl
    | false =>
      rw [edgesBetween_eq_nil g u v heq] at hx
      exact absurd hx (by simp)
  unfold edgesBetween
  rw [addEdge_edges]
  simp only [he, if_true]
  rw [filter_map_updEdgeEntry]
  rw [show g.edges.filter (fun e => e.1 == u && e.2.1 == v) = [(u, v, x)] from hx]
  rfl

/-! ### Claims C1, C3, C4 -/

/-- C1, as stated, is false on the code: the graph is a `networkx.DiGraph`,
which holds at most one edge per (source, target) pair, so inserting a second
edge with the same endpoints but a different relationship label overwrites
the first — here, after inserting the "knows" and then the "likes" edge from
A to B, only "likes" is present, refuting "both relationships are present in
the resulting graph". -/
theorem claim_C1_counterexample :
    relsBetween c1Graph (Json.str "A") (Json.str "B") = [some (Json.str "likes")]
    ∧ some (Json.str "knows") ∉ relsBetween c1Graph (Json.str "A") (Json.str "B") := by
  decide

/-- C1 amended: for every graph whose (source, target) edge keys are unique
(as in every real `networkx` graph) and every two edge insertions with the
same source and target, the second insertion overwrites the edge's attribute
dict, so exactly one (u, v) edge remains and it carries only the second
relationship label. -/
theorem claim_C1_amended (g : DiGraph) (u v : Json) (a1 a2 : Attrs) (r2 : Json)
    (hg : EdgeKeysNodup g) (hk : NodupKeys a2)
    (h2 : dictGet a2 "relationship" = some r2) :
    relsBetween (addEdge (addEdge g u v a1) u v a2) u v = [some r2] := by
  obtain ⟨x1, hx1⟩ : ∃ x1, edgesBetween (addEdge g u v a1) u v = [(u, v, x1)] := by
    cases he : hasEdge g u v with
    | false => exact ⟨a1, edgesBetween_addEdge_fresh g u v a1 he⟩
    | true =>
      obtain ⟨w, hw⟩ := edgesBetween_singleton_of g u v hg he
      exact ⟨dictUpdate w a1, edgesBetween_addEdge_update g u v a1 w hw⟩
  have hfinal := edgesBetween_addEdge_update (addEdge g u v a1) u v a2 x1 hx1
  unfold relsBetween
  rw [hfinal]
  simp only [List.map_cons, List.map_nil]
  rw [dictGet_dictUpdate_of_some x1 a2 "relationship" r2 hk h2]

/-- Witness for the amended C1 at the concrete two-insertion scenario. -/
theorem claim_C1_witness :
    relsBetween c1Graph (Json.str "A") (Json.str "B") = [some (Json.str "likes")] :=
  claim_C1_amended emptyG (Json.str "A") (Json.str "B")
    [("source", Json.str "A"), ("target", Json.str "B"), ("relationship", Json.str "knows")]
    [("source", Json.str "A"), ("target", Json.str "B"), ("relationship", Json.str "likes")]
    (Json.str "likes") (by decide) (by decide) (by decide)

/-- C3, as stated, is false on the code: `add_node` on an id collision runs a
Python dict `update`, which replaces the `_comment` value outright.  Merging
a node X annotated "A" with a delta node X annotated "B" leaves annotation
"B", which does not contain "A". -/
theorem claim_C3_counterexample :
    dictGet (nodeAttrs (addNode c3Graph (Json.str "X") [("_comment", Json.str "B")])
        (Json.str "X")) "_comment" = some (Json.str "B")
    ∧ strContains "B" "A" = false := by
  decide

/-- C3 amended: on an id collision, the newer annotation replaces the
existing one (the `_comment` value of the delta wins), while attributes the
delta does not mention are retained from the existing node. -/
theorem claim_C3_amended (g : DiGraph) (id : Json) (a : Attrs) (B : Json)
    (hn : hasNode g id = true) (hk : NodupKeys a)
    (hB : dictGet a "_comment" = some B) :
    dictGet (nodeAttrs (addNode g id a) id) "_comment" = some B ∧
    ∀ k, dictGet a k = none →
      dictGet (nodeAttrs (addNode g id a) id) k = dictGet (nodeAttrs g id) k := by
  rw [nodeAttrs_addNode_has g id a hn]
  exact ⟨dictGet_dictUpdate_of_some _ _ _ _ hk hB,
    fun k hk0 => dictGet_dictUpdate_of_none _ _ _ hk0⟩

/-- Witness for the amended C3 at the concrete annotation-collision scenario. -/
theorem claim_C3_witness :
    dictGet (nodeAttrs (addNode c3Graph (Json.str "X") [("_comment", Json.str "B")])
        (Json.str "X")) "_comment" = some (Json.str "B") :=
  (claim_C3_amended c3Graph (Json.str "X") [("_comment", Json.str "B")] (Json.str "B")
    (by decide) (by decide) (by decide)).1

/-- C4: a delta node whose id collides with an existing node updates the
existing node's attribute dict (per-key union, newer value wins) and leaves
the node count unchanged; a delta node with a fresh id is appended as a new
node, raising the count by one. -/
theorem claim_C4 (g : DiGraph) (id : Json) (a : Attrs) :
    (hasNode g id = true →
      nodeCount (addNode g id a) = nodeCount g ∧
      nodeAttrs (addNode g id a) id = dictUpdate (nodeAttrs g id) a) ∧
    (hasNode g id = false →
      nodeCount (addNode g id a) = nodeCount g + 1 ∧
      hasNode (addNode g id a) id = true ∧
      nodeAttrs (addNode g id a) id = a) := by
  constructor
  · intro h
    exact ⟨nodeCount_addNode_has g id a h, nodeAttrs_addNode_has g id a h⟩
  · intro h
    exact ⟨nodeCount_addNode_fresh g id a h, hasNode_addNode_self g id a,
      nodeAttrs_addNode_fresh g id a h⟩

/-- Witness for C4: a colliding insert keeps the count, a fresh insert
increments it. -/
theorem claim_C4_witness :
    nodeCount (addNode c4Graph (Json.str "X") [("t", Json.num 2)]) = nodeCount c4Graph
    ∧ nodeCount (addNode c4Graph (Json.str "Y") [("t", Json.num 2)]) = nodeCount c4Graph + 1 :=
  ⟨((claim_C4 c4Graph (Json.str "X") [("t", Json.num 2)]).1 (by decide)).1,
   ((claim_C4 c4Graph (Json.str "Y") [("t", Json.num 2)]).2 (by decide)).1⟩

/-! ### Claims C2 and C5 -/

/-- C2, as stated, is false on the code: the graph is mutated inside the
try block, so when the extracted JSON parses but a later node entry lacks
the "id" key, the `KeyError` is caught (the run continues) but the entries
already applied stay in the graph — here node "a" remains although the
delta failed, refuting "leaves the graph exactly as it was". -/
theorem claim_C2_counterexample :
    (processResponse emptyG c2BadResponse).1 ≠ emptyG
    ∧ (processResponse emptyG c2BadResponse).2 = false
    ∧ hasNode (processResponse emptyG c2BadResponse).1 (Json.str "a") = true := by
  decide

/-- C2 amended: when the response contains no parseable JSON, the error is
caught, the graph is left exactly as it was for that document, and the run
continues to the next document (processing the rest as if the bad document
were absent). -/
theorem claim_C2_amended (g : DiGraph) (d : String) (ds : List String)
    (h : jsonLoads (candidateOf d) = none) :
    processResponse g d = (g, false) ∧ runDocs g (d :: ds) = runDocs g ds := by
  have h1 : processResponse g d = (g, false) := by
    unfold processResponse
    rw [h]
  refine ⟨h1, ?_⟩
  show runDocs (processResponse g d).1 ds = runDocs g ds
  rw [h1]

/-- Witness for the amended C2 on a prose-only oracle response. -/
theorem claim_C2_witness :
    processResponse emptyG "the oracle returned no delta" = (emptyG, false)
    ∧ runDocs emptyG ["the oracle returned no delta"] = runDocs emptyG [] :=
  claim_C2_amended emptyG "the oracle returned no delta" [] (by decide)

/-- C5: applying the empty delta to any graph is a no-op with no error, and
the prose-wrapped response "Sure! Here is the JSON: ..." is extracted by the
brace regex and applied as the same no-op without erroring on the prose. -/
theorem claim_C5 (g : DiGraph) :
    applyDelta g (Json.obj [("nodes", Json.arr []), ("edges", Json.arr [])]) = (g, true)
    ∧ processResponse g "Sure! Here is the JSON: \x7b\"nodes\":[],\"edges\":[]\x7d" = (g, true) :=
  ⟨rfl, rfl⟩

/-! ### Claims C7 and C8 -/
theorem categorize_links_eq_filter (links : List String) :
    categorize_links links = (links.filter skipListed, links.filter (fun l => !skipListed l)) := by
  induction links with
  | nil => rfl
  | cons link rest ih =>
    cases h : skipListed link with
    | true => simp [categorize_links, ih, h, List.filter_cons]
    | false => simp [categorize_links, ih, h, List.filter_cons]

/-- C7: a skip-listed link (its domain contains a configured skip domain as
a substring) is never given to the fast tier — it is not among the
processable links and always lands in the escalation set — while every
non-skip-listed link is given to the fast tier. -/
theorem claim_C7 (fetch : String → Option String) (links : List String) (link : String)
    (hmem : link ∈ links) :
    (skipListed link = true →
      link ∉ (categorize_links links).2 ∧ link ∈ (processBatch fetch links).2) ∧
    (skipListed link = false → link ∈ (categorize_links links).2) := by
  rw [categorize_links_eq_filter]
  constructor
  · intro h
    constructor
    · intro hc
      have := (List.mem_filter.1 hc).2
      simp [h] at this
    · unfold processBatch
      rw [categorize_links_eq_filter]
      exact List.mem_append.2 (Or.inr (List.mem_filter.2 ⟨hmem, h⟩))
  · intro h
    exact List.mem_filter.2 ⟨hmem, by simp [h]⟩

/-- Witness for C7: a linkedin.com link is escalated, an example.com link is
fast-tier. -/
theorem claim_C7_witness :
    "https://www.linkedin.com/in/someone" ∈
      (processBatch (fun _ => none)
        ["https://www.linkedin.com/in/someone", "https://example.com/page"]).2 :=
  ((claim_C7 (fun _ => none)
      ["https://www.linkedin.com/in/someone", "https://example.com/page"]
      "https://www.linkedin.com/in/someone" (by decide)).1 (by decide)).2

theorem filterMap_isNone_length {α β : Type} (l : List α) (f : α → Option β) :
    (l.filterMap f).length + (l.filter (fun x => (f x).isNone)).length = l.length := by
  induction l with
  | nil => rfl
  | cons x rest ih =>
    rw [List.filterMap_cons, List.filter_cons]
    cases h : f x with
    | none =>
      simp
      omega
    | some y =>
      simp
      omega

/-- C8: after the fast tier and before escalation, fast-tier successes plus
escalation inputs account for every link exactly once:
|scraped| + |escalation set| = |processable| + |skip-listed|. -/
theorem claim_C8 (fetch : String → Option String) (links : List String) :
    (processBatch fetch links).1.length + (processBatch fetch links).2.length =
      (categorize_links links).2.length + (categorize_links links).1.length := by
  unfold processBatch
  simp only [List.length_append]
  have h := filterMap_isNone_length (categorize_links links).2
    (fun l => (fetch l).map (fun md => (l, md)))
  have heq : ((categorize_links links).2.filter (fun l => (fetch l).isNone)).length
      = ((categorize_links links).2.filter
          (fun l => ((fetch l).map (fun md => (l, md))).isNone)).length := by
    congr 1
    apply List.filter_congr
    intro x _
    cases fetch x <;> rfl
  omega

/-- C6: the code intends to catch both signaled conditions
(`except RateLimited or CaptchaDetected:`), but Python evaluates the class
expression `RateLimited or CaptchaDetected` to `RateLimited`, so a
`CaptchaDetected` page is swallowed by the generic `except Exception`
handler and returns `[]` with no scrape.do fallback, while `RateLimited`
does trigger the fallback — evaluating the code at both failing inputs. -/
theorem claim_C6_eval :
    (scrape_google_page (Except.error PyExc.captchaDetected)
      (Except.ok "markup") (fun _ => ["link"])).fellBack = false
    ∧ (scrape_google_page (Except.error PyExc.captchaDetected)
        (Except.ok "markup") (fun _ => ["link"])).links = []
    ∧ (scrape_google_page (Except.error PyExc.rateLimited)
        (Except.ok "markup") (fun _ => ["link"])).fellBack = true := by
  decide

/-! ### C9 lemmas -/
theorem addIdent_mono (a : Assoc) (t lbl : Json) :
    a.email ⊆ (addIdent a t lbl).email
    ∧ a.username ⊆ (addIdent a t lbl).username
    ∧ a.phone ⊆ (addIdent a t lbl).phone := by
  unfold addIdent
  split_ifs <;>
    exact ⟨by simp [Finset.subset_insert], by simp [Finset.subset_insert],
      by simp [Finset.subset_insert]⟩

theorem addIdent_phone_eq (a : Assoc) (t lbl : Json) (h : t ≠ Json.str "phone") :
    (addIdent a t lbl).phone = a.phone := by
  unfold addIdent
  split_ifs <;> simp_all

theorem addIdent_phone_char (a : Assoc) (t lbl x : Json)
    (hx : x ∈ (addIdent a t lbl).phone) :
    x ∈ a.phone ∨ (t = Json.str "phone" ∧ lbl = x) := by
  unfold addIdent at hx
  split_ifs at hx with h1 h2 h3
  · exact Or.inl hx
  · exact Or.inl hx
  · rcases Finset.mem_insert.1 hx with rfl | hx2
    · exact Or.inr ⟨h3, rfl⟩
    · exact Or.inl hx2
  · exact Or.inl hx

theorem addIdent_email_self (a : Assoc) (lbl : Json) :
    lbl ∈ (addIdent a (Json.str "email") lbl).email := by
  unfold addIdent
  simp

theorem smStep_mono (g : DiGraph) (a : Assoc) (nb : Json) (a1 : Assoc)
    (h : smStep g a nb = some a1) :
    a.email ⊆ a1.email ∧ a.username ⊆ a1.username ∧ a1.phone = a.phone := by
  unfold smStep at h
  split_ifs at h with h1 h2
  · injection h with h
    subst h
    refine ⟨(addIdent_mono a _ _).1, (addIdent_mono a _ _).2.1, ?_⟩
    apply addIdent_phone_eq
    rcases h1 with h1 | h1 <;> simp [h1]
  · injection h with h
    subst h
    exact ⟨Finset.Subset.refl _, Finset.Subset.refl _, rfl⟩

theorem smFold_mono (g : DiGraph) (l : List Json) (a a1 : Assoc)
    (h : smFold g a l = some a1) :
    a.email ⊆ a1.email ∧ a.username ⊆ a1.username ∧ a1.phone = a.phone := by
  induction l generalizing a with
  | nil =>
    injection h with h
    subst h
    exact ⟨Finset.Subset.refl _, Finset.Subset.refl _, rfl⟩
  | cons n rest ih =>
    unfold smFold at h
    cases hs : smStep g a n with
    | none => rw [hs] at h; exact absurd h (by simp)
    | some a2 =>
      rw [hs] at h
      have h1 := smStep_mono g a n a2 hs
      have h2 := ih a2 h
      exact ⟨h1.1.trans h2.1, h1.2.1.trans h2.2.1, h2.2.2.trans h1.2.2⟩

theorem smFold_email_mem (g : DiGraph) (e2 L : Json) (l : List Json) (a a1 : Assoc)
    (hmem : e2 ∈ l)
    (hte : pyGet (nodeAttrs g e2) "type" = Json.str "email")
    (hle : pyGet (nodeAttrs g e2) "label" = L)
    (hh : hashableJ L = true)
    (h : smFold g a l = some a1) : L ∈ a1.email := by
  induction l generalizing a with
  | nil => cases hmem
  | cons n rest ih =>
    unfold smFold at h
    cases hs : smStep g a n with
    | none => rw [hs] at h; exact absurd h (by simp)
    | some a2 =>
      rw [hs] at h
      rcases List.mem_cons.1 hmem with rfl | hmem2
      · have hs2 : a2 = addIdent a (Json.str "email") L := by
          unfold smStep at hs
          rw [hte, hle] at hs
          simp [hh] at hs
          exact hs.symm
        subst hs2
        exact (smFold_mono g rest _ a1 h).1 (addIdent_email_self a L)
      · exact ih a2 hmem2 h

theorem nbStepDirect_mono (g : DiGraph) (a : Assoc) (nb : Json) (a1 : Assoc)
    (h : nbStepDirect g a nb = some a1) :
    a.email ⊆ a1.email ∧ a.username ⊆ a1.username ∧ a.phone ⊆ a1.phone := by
  unfold nbStepDirect at h
  split_ifs at h with h1 h2
  · injection h with h
    subst h
    exact addIdent_mono a _ _
  · injection h with h
    subst h
    exact ⟨Finset.Subset.refl _, Finset.Subset.refl _, Finset.Subset.refl _⟩

theorem nbStepDirect_phone_char (g : DiGraph) (a : Assoc) (nb : Json) (a1 : Assoc)
    (h : nbStepDirect g a nb = some a1) (x : Json) (hx : x ∈ a1.phone) :
    x ∈ a.phone
    ∨ (pyGet (nodeAttrs g nb) "type" = Json.str "phone"
        ∧ pyGet (nodeAttrs g nb) "label" = x) := by
  unfold nbStepDirect at h
  split_ifs at h with h1 h2
  · injection h with h
    subst h
    rcases addIdent_phone_char a _ _ x hx with hx2 | hx2
    · exact Or.inl hx2
    · exact Or.inr ⟨hx2.1, hx2.2⟩
  · injection h with h
    subst h
    exact Or.inl hx

theorem nbStep_mono (g : DiGraph) (a : Assoc) (nb : Json) (a1 : Assoc)
    (h : nbStep g a nb = some a1) :
    a.email ⊆ a1.email ∧ a.username ⊆ a1.username ∧ a.phone ⊆ a1.phone := by
  unfold nbStep at h
  by_cases h1 : hashableJ (pyGet (nodeAttrs g nb) "type") = true
  · rw [if_pos h1] at h
    cases hd : nbStepDirect g a nb with
    | none => rw [hd] at h; exact absurd h (by simp)
    | some a2 =>
      rw [hd] at h
      dsimp only at h
      have hm := nbStepDirect_mono g a nb a2 hd
      by_cases h2 : pyGet (nodeAttrs g nb) "type" = Json.str "social_media"
      · rw [if_pos h2] at h
        have hf := smFold_mono g (neighbors g nb) a2 a1 h
        exact ⟨hm.1.trans hf.1, hm.2.1.trans hf.2.1, hf.2.2 ▸ hm.2.2⟩
      · rw [if_neg h2] at h
        injection h with h
        subst h
        exact hm
  · rw [if_neg h1] at h
    exact absurd h (by simp)

theorem nbStep_phone_char (g : DiGraph) (a : Assoc) (nb : Json) (a1 : Assoc)
    (h : nbStep g a nb = some a1) (x : Json) (hx : x ∈ a1.phone) :
    x ∈ a.phone
    ∨ (pyGet (nodeAttrs g nb) "type" = Json.str "phone"
        ∧ pyGet (nodeAttrs g nb) "label" = x) := by
  unfold nbStep at h
  by_cases h1 : hashableJ (pyGet (nodeAttrs g nb) "type") = true
  · rw [if_pos h1] at h
    cases hd : nbStepDirect g a nb with
    | none => rw [hd] at h; exact absurd h (by simp)
    | some a2 =>
      rw [hd] at h
      dsimp only at h
      by_cases h2 : pyGet (nodeAttrs g nb) "type" = Json.str "social_media"
      · rw [if_pos h2] at h
        have hf := smFold_mono g (neighbors g nb) a2 a1 h
        exact nbStepDirect_phone_char g a nb a2 hd x (hf.2.2 ▸ hx)
      · rw [if_neg h2] at h
        injection h with h
        subst h
        exact nbStepDirect_phone_char g a nb a2 hd x hx
  · rw [if_neg h1] at h
    exact absurd h (by simp)

theorem nbFold_mono (g : DiGraph) (l : List Json) (a a1 : Assoc)
    (h : nbFold g a l = some a1) :
    a.email ⊆ a1.email ∧ a.username ⊆ a1.username ∧ a.phone ⊆ a1.phone := by
  induction l generalizing a with
  | nil =>
    injection h with h
    subst h
    exact ⟨Finset.Subset.refl _, Finset.Subset.refl _, Finset.Subset.refl _⟩
  | cons n rest ih =>
    unfold nbFold at h
    cases hs : nbStep g a n with
    | none => rw [hs] at h; exact absurd h (by simp)
    | some a2 =>
      rw [hs] at h
      have h1 := nbStep_mono g a n a2 hs
      have h2 := ih a2 h
      exact ⟨h1.1.trans h2.1, h1.2.1.trans h2.2.1, h1.2.2.trans h2.2.2⟩

theorem nbFold_email_mem (g : DiGraph) (s e2 L : Json) (l : List Json) (a a1 : Assoc)
    (hmem : s ∈ l)
    (hts : pyGet (nodeAttrs g s) "type" = Json.str "social_media")
    (hse : e2 ∈ neighbors g s)
    (hte : pyGet (nodeAttrs g e2) "type" = Json.str "email")
    (hle : pyGet (nodeAttrs g e2) "label" = L)
    (hh : hashableJ L = true)
    (h : nbFold g a l = some a1) : L ∈ a1.email := by
  induction l generalizing a with
  | nil => cases hmem
  | cons n rest ih =>
    unfold nbFold at h
    cases hs : nbStep g a n with
    | none => rw [hs] at h; exact absurd h (by simp)
    | some a2 =>
      rw [hs] at h
      rcases List.mem_cons.1 hmem with rfl | hmem2
      · have hsm : smFold g a (neighbors g s) = some a2 := by
          unfold nbStep at hs
          rw [hts] at hs
          simpa [nbStepDirect, hashableJ, hts] using hs
        have := smFold_email_mem g e2 L (neighbors g s) a a2 hse hte hle hh hsm
        exact (nbFold_mono g rest a2 a1 h).1 this
      · exact ih a2 hmem2 h

theorem nbFold_phone_char (g : DiGraph) (l : List Json) (a a1 : Assoc)
    (h : nbFold g a l = some a1) (x : Json) (hx : x ∈ a1.phone) :
    x ∈ a.phone
    ∨ ∃ nb ∈ l, pyGet (nodeAttrs g nb) "type" = Json.str "phone"
        ∧ pyGet (nodeAttrs g nb) "label" = x := by
  induction l generalizing a with
  | nil =>
    injection h with h
    subst h
    exact Or.inl hx
  | cons n rest ih =>
    unfold nbFold at h
    cases hs : nbStep g a n with
    | none => rw [hs] at h; exact absurd h (by simp)
    | some a2 =>
      rw [hs] at h
      rcases ih a2 h with hx2 | ⟨nb, hnb, hnb2⟩
      · rcases nbStep_phone_char g a n a2 hs x hx2 with hx3 | hx3
        · exact Or.inl hx3
        · exact Or.inr ⟨n, List.mem_cons_self n rest, hx3⟩
      · exact Or.inr ⟨nb, List.mem_cons_of_mem n hnb, hnb2⟩

/-- C9: whenever a person node has a directed edge to a social_media-typed
node that has a directed edge to an email-typed node with (hashable) label
L, a successful associated-identifier collection puts L in the email set;
moreover the two-hop walk feeds only the email and username sets — every
member of the phone set comes from a direct phone-typed neighbor.  The
three sets are finite sets, hence deduplicated by construction. -/
theorem claim_C9 (g : DiGraph) (p s e2 L : Json) (a : Assoc)
    (_hp : pyGet (nodeAttrs g p) "type" = Json.str "person")
    (hps : s ∈ neighbors g p)
    (hse : e2 ∈ neighbors g s)
    (hts : pyGet (nodeAttrs g s) "type" = Json.str "social_media")
    (hte : pyGet (nodeAttrs g e2) "type" = Json.str "email")
    (hle : pyGet (nodeAttrs g e2) "label" = L)
    (hh : hashableJ L = true)
    (hsucc : associatedOf g p = some a) :
    L ∈ a.email
    ∧ (∀ x ∈ a.phone, ∃ nb ∈ neighbors g p,
        pyGet (nodeAttrs g nb) "type" = Json.str "phone"
        ∧ pyGet (nodeAttrs g nb) "label" = x) := by
  unfold associatedOf at hsucc
  constructor
  · exact nbFold_email_mem g s e2 L (neighbors g p) emptyAssoc a hps hts hse hte hle hh hsucc
  · intro x hx
    rcases nbFold_phone_char g (neighbors g p) emptyAssoc a hsucc x hx with hx2 | hx2
    · exact absurd hx2 (by simp [emptyAssoc])
    · exact hx2

/-- Witness for C9 on the concrete person → social_media → email graph. -/
theorem claim_C9_witness : Json.str "a@b.c" ∈ c9Assoc.email :=
  (claim_C9 c9Graph (Json.str "p") (Json.str "s") (Json.str "e") (Json.str "a@b.c") c9Assoc
    (by decide) (by decide) (by decide) (by decide) (by decide) (by decide) (by decide)
    (by decide)).1

/-- C10: if the assembled graph contains a node typed "person" without a
label attribute, the person-selection step evaluates
`target in data.get("label")` on Python None and raises `TypeError`
(modelled as `none`), aborting the run after graph assembly instead of
returning person candidates. -/
theorem claim_C10 (g : DiGraph) (target : String) (id : Json) (d : Attrs)
    (hmem : (id, d) ∈ g.nodes)
    (ht : pyGet d "type" = Json.str "person")
    (hl : dictGet d "label" = none) :
    run_pipeline_personSelect target g = none := by
  unfold run_pipeline_personSelect
  have hgen : ∀ l : List (Json × Attrs), (id, d) ∈ l → selectPersons target l = none := by
    intro l hm
    induction l with
    | nil => cases hm
    | cons q rest ih =>
      obtain ⟨qid, qd⟩ := q
      rcases List.mem_cons.1 hm with heq | hmem2
      · injection heq with h1 h2
        subst h1
        subst h2
        show selectPersons target ((id, d) :: rest) = none
        unfold selectPersons
        rw [if_pos ht]
        have hnull : pyGet d "label" = Json.null := by
          unfold pyGet
          rw [hl]
          rfl
        rw [hnull]
        rfl
      · have hrest := ih hmem2
        show selectPersons target ((qid, qd) :: rest) = none
        unfold selectPersons
        by_cases hq : pyGet qd "type" = Json.str "person"
        · rw [if_pos hq]
          cases hb : pyIn target (pyGet qd "label") with
          | none => rfl
          | some b =>
            rw [hrest]
        · rw [if_neg hq]
          exact hrest
  exact hgen g.nodes hmem

/-- Witness for C10: a one-node graph with an unlabelled person aborts
person selection. -/
theorem claim_C10_witness : run_pipeline_personSelect "p1" c10Graph = none :=
  claim_C10 c10Graph "p1" (Json.str "p1") [("type", Json.str "person")]
    (by decide) (by decide) (by decide)
